import Mathlib

/-!
Verification of `hlt_torch/model.py` (the HLT / HLTransformer repository).

The development shallowly embeds the model code at two levels:

* a shape-level embedding: every tensor operation of the forward pipeline
  becomes a function from input shapes to `Option` output shapes (`none`
  models a runtime shape error), mirroring PyTorch's conv / einops /
  broadcasting shape rules;
* a value-level embedding over `ℝ` (respectively `ℚ`) of the parts whose
  claims are about values: the temporal transformer with its attention mask,
  the sinusoidal positional embedding, multi-query transformer attention,
  and the MBConv residual wrapper.

Stochastic layers (dropout, drop-sample) are modelled in their deterministic
(evaluation-mode / zero-probability) branch, which is the branch the claims
speak about; the stochastic branch of `Dropsample` is modelled with the
random keep-mask as an explicit parameter.
-/

namespace HLT

/-! ## Shape-level embedding

Shapes are tuples of `ℕ`.  A `none` result models a PyTorch runtime error
(dimension mismatch, failed einops rearrange, failed broadcast). -/

/-- Spatial shape of a feature map: channels, height, width (the batch axis is
carried separately since the modules never change it). -/
structure Shape3 where
  c : ℕ
  h : ℕ
  w : ℕ
deriving DecidableEq

/-- Six-axis shape used by windowed attention:
(batch, grid-x, grid-y, window-h, window-w, channel). -/
structure Shape6 where
  b : ℕ
  x : ℕ
  y : ℕ
  w1 : ℕ
  w2 : ℕ
  d : ℕ
deriving DecidableEq

/-- Output extent of a 1-D convolution with kernel `k`, stride `s`, padding
`p` on an input of extent `n` (PyTorch's `floor((n + 2p - k)/s) + 1`). -/
def convOut (n k s p : ℕ) : ℕ :=
  (n + 2 * p - k) / s + 1

/-- Shape semantics of `nn.Conv2d(cin, cout, k, stride, padding, groups)`:
requires the input channel count to match and the group count to divide both
channel counts. -/
def conv2dShape (cin cout k s p groups : ℕ) (sh : Shape3) : Option Shape3 :=
  if sh.c = cin ∧ groups ∣ cin ∧ groups ∣ cout then
    some ⟨cout, convOut sh.h k s p, convOut sh.w k s p⟩
  else none

/-- Shape semantics of `SqueezeExcitation(dim)`: the gate's mean-reduce and
`Linear(dim, hidden)` require the channel axis to equal `dim`; the output
shape equals the input shape. -/
def seShape (dim : ℕ) (sh : Shape3) : Option Shape3 :=
  if sh.c = dim then some sh else none

/-- Shape semantics of `MBConv(dim_in, dim_out, downsample=...)`:
1×1 expand → depthwise 3×3 (stride 2 iff downsampling) → squeeze-excitation →
1×1 project, wrapped in a residual sum (which needs matching shapes) exactly
when `dim_in == dim_out and not downsample`. -/
def mbconvShape (din dout : ℕ) (downsample : Bool) (expansionRate : ℕ)
    (sh : Shape3) : Option Shape3 :=
  let hidden := expansionRate * dout
  let stride := if downsample then 2 else 1
  (conv2dShape din hidden 1 1 0 1 sh).bind fun s1 =>
  (conv2dShape hidden hidden 3 stride 1 hidden s1).bind fun s2 =>
  (seShape hidden s2).bind fun s3 =>
  (conv2dShape hidden dout 1 1 0 1 s3).bind fun s4 =>
  if din = dout ∧ downsample = false then
    if s4 = sh then some s4 else none
  else some s4

/-- Numpy/PyTorch broadcast rule for one aligned dimension pair. -/
def broadcastDim (a b : ℕ) : Option ℕ :=
  if a = b then some a
  else if a = 1 then some b
  else if b = 1 then some a
  else none

/-- Shape semantics of the einops rearrange "b d (x w1) (y w2) -> b x y w1 w2 d"
(and of the grid variant "b d (w1 x) (w2 y) -> b x y w1 w2 d", which has the
same shape behaviour): requires both spatial extents to be divisible by the
window size `w`. -/
def windowRearrangeShape (w : ℕ) (b : ℕ) (sh : Shape3) : Option Shape6 :=
  if 0 < w ∧ w ∣ sh.h ∧ w ∣ sh.w then
    some ⟨b, sh.h / w, sh.w / w, w, w, sh.c⟩
  else none

/-- Shape semantics of windowed `Attention.forward` for a module built with
`Attention(dim, dim_head, window_size, num_mem_kv)`:
norm and `to_qkv` need the channel axis to equal `dim`; heads are split as
`dim / dim_head` (the constructor asserts divisibility); the relative-position
bias of shape `(heads, ws², num_mem + ws²)` is broadcast-added to the
similarity of shape `(B, heads, w1·w2, num_mem + w1·w2)`; the attended values
are merged back and the output is reshaped to the six-axis layout. -/
def attnShape (dim dimHead ws numMem : ℕ) (s : Shape6) : Option Shape6 :=
  if s.d = dim ∧ dimHead ∣ dim ∧ 0 < dimHead then
    let heads := dim / dimHead
    let n := s.w1 * s.w2
    (broadcastDim n (ws * ws)).bind fun ni =>
    (broadcastDim (numMem + n) (numMem + ws * ws)).bind fun nj =>
    -- einsum "b h i j, b h j d -> b h i d" needs the j axes to agree exactly
    if nj = numMem + n then
      -- rearrange "b h (w1 w2) d -> b w1 w2 (h d)" needs i = w1·w2
      if ni = s.w1 * s.w2 then
        some ⟨s.b, s.x, s.y, s.w1, s.w2, heads * dimHead⟩
      else none
    else none
  else none

/-- Shape semantics of `FeedForward(dim)` applied to the six-axis layout:
`LayerNorm(dim)` and `Linear(dim, dim*mult)` require the last axis to equal
`dim`; the output shape equals the input shape. -/
def ffShape6 (dim : ℕ) (s : Shape6) : Option Shape6 :=
  if s.d = dim then some s else none

/-- Shape semantics of one MaxViT stage block: MBConv, then the residual
block-attention + feed-forward pair on `w×w` tiles, then the residual
grid-attention + feed-forward pair.  The `Residual` wrappers require the
wrapped module to preserve the shape. -/
def blockShape (B din dout w dimHead : ℕ) (downsample : Bool)
    (sh : Shape3) : Option Shape3 :=
  (mbconvShape din dout downsample 4 sh).bind fun s1 =>
  (windowRearrangeShape w B s1).bind fun s6 =>
  (attnShape dout dimHead w 4 s6).bind fun s6a =>
  if s6a = s6 then
    (ffShape6 dout s6a).bind fun s6b =>
    let back : Shape3 := ⟨s6b.d, s6b.x * s6b.w1, s6b.y * s6b.w2⟩
    (windowRearrangeShape w B back).bind fun g6 =>
    (attnShape dout dimHead w 4 g6).bind fun g6a =>
    if g6a = g6 then
      (ffShape6 dout g6a).bind fun g6b =>
      some ⟨g6b.d, g6b.w1 * g6b.x, g6b.w2 * g6b.y⟩
    else none
  else none

/-- Shape semantics of the non-first blocks of a stage (no downsampling,
equal in/out width), iterated `n` times. -/
def repBlocksShape (B dout w dimHead : ℕ) : ℕ → Shape3 → Option Shape3
  | 0, sh => some sh
  | n + 1, sh =>
      (blockShape B dout dout w dimHead false sh).bind
        (repBlocksShape B dout w dimHead n)

/-- Shape semantics of one MaxViT stage of depth `n`: the first block
downsamples from `din` to `dout`, the remaining `n - 1` blocks preserve. -/
def stageShape (B din dout w dimHead n : ℕ) (sh : Shape3) : Option Shape3 :=
  match n with
  | 0 => some sh
  | n + 1 =>
      (blockShape B din dout w dimHead true sh).bind
        (repBlocksShape B dout w dimHead n)

/-- Shape semantics of the sequence of MaxViT stages, each given by its
output width and depth, carrying the input width of the next stage. -/
def stagesShape (B w dimHead : ℕ) : ℕ → List (ℕ × ℕ) → Shape3 → Option Shape3
  | _, [], sh => some sh
  | din, (dout, n) :: rest, sh =>
      (stageShape B din dout w dimHead n sh).bind
        (stagesShape B w dimHead dout rest)

/-- Stage output widths `(2^i) * dim` of `MaxViT.__init__`. -/
def maxvitDims (dim s : ℕ) : List ℕ :=
  (List.range s).map fun i => 2 ^ i * dim

/-- Channel width after running the listed stages, starting from `din`. -/
def stagesLastDim : ℕ → List (ℕ × ℕ) → ℕ
  | din, [] => din
  | _, p :: rest => stagesLastDim p.1 rest

/-- Shape semantics of the MaxViT convolutional stem:
stride-2 3×3 conv then stride-1 3×3 conv. -/
def stemShape (channels stemDim : ℕ) (sh : Shape3) : Option Shape3 :=
  (conv2dShape channels stemDim 3 2 1 1 sh).bind
    (conv2dShape stemDim stemDim 3 1 1 1)

/-- Shape semantics of `MaxViT.forward(..., return_embeddings=True)`:
the conditioning functions are shape-preserving modulations, so they do not
appear at the shape level. -/
def maxvitEmbedShape (B channels stemDim dim dimHead w : ℕ)
    (depth : List ℕ) (sh : Shape3) : Option Shape3 :=
  (stemShape channels stemDim sh).bind
    (stagesShape B w dimHead stemDim ((maxvitDims dim depth.length).zip depth))

/-- Final embedding width `dims[-1]` of `MaxViT.__init__`. -/
def maxvitEmbedDim (stemDim dim s : ℕ) : ℕ :=
  (maxvitDims dim s).getLastD stemDim

/-- Shape semantics of `TokenLearner.forward` for a module built with
`TokenLearner(dim, ff_mult, num_output_tokens = g)`: pack the leading axes,
replicate the channels `g` times, apply the grouped two-layer conv net
(its first conv requires `g·c = dim·g` input channels and positive groups),
multiply with the replicated map, mean-reduce the spatial axes and unpack.
The result keeps the leading axes and has `(c, g)` as trailing axes. -/
def tokenLearnerShape (dim ffMult g : ℕ) (lead : List ℕ) (c h w : ℕ) :
    Option (List ℕ) :=
  let inner := dim * ffMult * g
  if 0 < g ∧ g * c = dim * g ∧ g ∣ dim * g ∧ g ∣ inner then
    some (lead ++ [c, g])
  else none

/-- Shape semantics of one `Transformer` layer applied to a sequence of shape
`(n, dmodel)` with an attention mask of shape `(maskN, maskN)`:
`LayerNorm(dim)` and `to_q : Linear(dim, _)` require `dmodel = dim`, and
`masked_fill` requires the mask to match the similarity's trailing axes;
attention and feed-forward are residual, so the shape is preserved. -/
def transformerShape (dim : ℕ) (maskN : ℕ) : ℕ → ℕ × ℕ → Option (ℕ × ℕ)
  | 0, s => some s
  | t + 1, s =>
      if s.2 = dim ∧ s.1 = maskN then
        transformerShape dim maskN t s
      else none

/-- Width of the table produced by `posemb_sincos_1d(seq, dim)`: `dim // 2`
sine columns concatenated with `dim // 2` cosine columns. -/
def posembWidth (dim : ℕ) : ℕ := 2 * (dim / 2)

/-- Error cases of the modelled `HLTransformer.forward`: the
texts/text-embeds precondition assert, or a tensor shape error anywhere in
the pipeline. -/
inductive HltErr where
  | condInput
  | shape
deriving DecidableEq

/-- Shape semantics of `HLTransformer.forward` for a model built from a
`MaxViT(dim, depth, dim_head, dim_conv_stem, window_size, channels)` and an
`HLTransformer(num_actions, action_bins, depth = tDepth,
token_learner_num_output_tokens = g)`, on a video of shape
`(b, c, f, h, w)` with `hasTexts`/`hasEmbeds` recording which of
`texts`/`text_embeds` was supplied:
assert exactly one of the two, flatten batch and frames, run the MaxViT in
embedding mode, distill with the token learner, flatten frames and tokens,
add the sinusoidal positional embedding (whose width must equal the embedding
width), run the temporal transformer under the block-causal mask, mean-pool
per frame and project to `(num_actions, action_bins)` logits. -/
def hltForwardShape (channels stemDim dim dimHead w : ℕ) (depth : List ℕ)
    (tDepth g numActions actionBins : ℕ)
    (hasTexts hasEmbeds : Bool) (b c f h wImg : ℕ) :
    Except HltErr (ℕ × ℕ × ℕ × ℕ) :=
  if hasTexts ^^ hasEmbeds then
    let embedDim := maxvitEmbedDim stemDim dim depth.length
    let pipeline : Option (ℕ × ℕ × ℕ × ℕ) :=
      (maxvitEmbedShape (b * f) channels stemDim dim dimHead w depth
          ⟨c, h, wImg⟩).bind fun e =>
      (tokenLearnerShape embedDim 2 g [b, f] e.c e.h e.w).bind fun _ =>
      -- rearrange "b f c n -> b (f n) c" gives a (f·g, embedDim) sequence,
      -- provided the token learner returned channel width embedDim
      if e.c = embedDim then
        -- the added positional embedding must have exactly embedDim columns
        if posembWidth embedDim = embedDim then
          (transformerShape embedDim (f * g) tDepth (f * g, embedDim)).bind
            fun s =>
          -- reduce "b (f n) d -> b f d" needs the sequence to factor as f·n
          if s.1 = f * g ∧ 0 < actionBins then
            some (b, f, numActions, actionBins)
          else none
        else none
      else none
    match pipeline with
    | some s => .ok s
    | none => .error .shape
  else .error .condInput

/-! ## Relative-position bias of windowed `Attention` (C4)

`Attention.__init__` builds `nn.Embedding((2·w − 1)², heads)` and a buffer
`rel_pos_indices` over all pairs of window positions; `Attention.forward`
looks the bias up at those indices and zero-pads it in front of the key axis
for the memory key/value slots. -/

/-- Number of rows of the relative-position bias table
`nn.Embedding((2 * window_size - 1) ** 2, heads)`. -/
def relPosTableSize (w : ℕ) : ℕ := (2 * w - 1) ^ 2

/-- Row coordinate of the flattened window position `p` (the meshgrid is
flattened as "(i j)", row-major). -/
def gridRow (w p : ℕ) : ℕ := p / w

/-- Column coordinate of the flattened window position `p`. -/
def gridCol (w p : ℕ) : ℕ := p % w

/-- The precomputed `rel_pos_indices` entry for query position `i` and key
position `j` (both flattened window positions): componentwise difference of
grid coordinates, shifted by `w − 1`, then dotted with `(2·w − 1, 1)`.
Computed in `ℤ` as PyTorch does (signed integer tensor). -/
def relPosIndex (w : ℕ) (i j : ℕ) : ℤ :=
  ((gridRow w i : ℤ) - gridRow w j + (w - 1 : ℕ)) * (2 * w - 1 : ℕ)
    + ((gridCol w i : ℤ) - gridCol w j + (w - 1 : ℕ))

/-- The bias actually added to the similarity row in `Attention.forward`:
`F.pad(bias, (0, 0, num_mem, 0), value = 0.)` prepends `numMem` zero rows
along the key axis, so key positions below `numMem` get bias `0` and key
position `numMem + j` gets the table entry for window pair `(i, j)`. -/
def paddedBias (numMem : ℕ) (bias : ℕ → ℕ → ℝ) (i j : ℕ) : ℝ :=
  if j < numMem then 0 else bias i (j - numMem)

/-! ## Conditioning-function consumption (C9)

`MaxViT.forward` consumes one conditioning function per stage block through
`next(cond_fns, None)` on an iterator over the supplied sequence (defaulted
to `[]`); `Transformer.forward` consumes two per layer, one for the attention
sub-layer and one for the feed-forward sub-layer.  An exhausted iterator
yields `None`, and a `None` conditioning function is skipped.  The stage and
sub-layer bodies are abstract here: the claim is about the consumption
logic. -/

/-- `MaxViT.forward`'s loop: pop the next conditioning function if any,
apply it to the running tensor, then apply the stage. -/
def maxvitFwdCond {α : Type} : List (α → α) → List (α → α) → α → α
  | [], _, x => x
  | stage :: stages, [], x => maxvitFwdCond stages [] (stage x)
  | stage :: stages, c :: cs, x => maxvitFwdCond stages cs (stage (c x))

/-- Indexed reformulation of the same loop: stage `i` is conditioned by the
`i`-th supplied function when it exists, and runs unconditioned otherwise. -/
def maxvitFwdIdx {α : Type} (condFns : List (α → α)) :
    ℕ → List (α → α) → α → α
  | _, [], x => x
  | i, stage :: stages, x =>
      maxvitFwdIdx condFns (i + 1) stages
        (stage (((condFns.get? i).getD id) x))

/-- `Transformer.forward`'s loop: each layer is a pair of sub-layer bodies
(attention, then feed-forward), each taking the tensor and its optional
conditioning function; each consumes the next function of the sequence. -/
def transformerFwdCond {α : Type} :
    List ((α → Option (α → α) → α) × (α → Option (α → α) → α)) →
      List (α → α) → α → α
  | [], _, x => x
  | (attn, ff) :: layers, cs, x =>
      let c1 := cs.head?
      let cs1 := cs.tail
      let c2 := cs1.head?
      let cs2 := cs1.tail
      transformerFwdCond layers cs2 (ff (attn x c1) c2)

/-- Indexed reformulation: layer `i`'s attention gets function `2·i` and its
feed-forward gets function `2·i + 1`, or nothing beyond the sequence end. -/
def transformerFwdIdx {α : Type} (condFns : List (α → α)) :
    ℕ → List ((α → Option (α → α) → α) × (α → Option (α → α) → α)) → α → α
  | _, [], x => x
  | i, (attn, ff) :: layers, x =>
      transformerFwdIdx condFns (i + 1) layers
        (ff (attn x (condFns.get? (2 * i))) (condFns.get? (2 * i + 1)))

/-! ## MBConv residual wrapping and Dropsample (C7)

Value-level model over `ℚ`-valued feature maps indexed by an arbitrary
index type.  The convolutional pipeline built by `MBConv` is abstracted as a
function `net`; the claim is about the residual wrapper around it.
`Dropsample`'s random keep-mask is an explicit parameter standing for the
sampled uniform tensor compared against the drop probability. -/

/-- `Dropsample.forward`: identity when the drop probability is `0` or the
module is in evaluation mode; otherwise multiply by the keep mask and
rescale by `1 / (1 - prob)`. -/
def dropsample {ι : Type} (prob : ℚ) (training : Bool) (keepMask : ι → ℚ)
    (x : ι → ℚ) : ι → ℚ :=
  if prob = 0 ∨ training = false then x
  else fun i => x i * keepMask i / (1 - prob)

/-- `MBConvResidual.forward`: branch, drop-sample, add the input. -/
def mbconvResidualFwd {ι : Type} (net : (ι → ℚ) → ι → ℚ) (prob : ℚ)
    (training : Bool) (keepMask : ι → ℚ) (x : ι → ℚ) : ι → ℚ :=
  dropsample prob training keepMask (net x) + x

/-- The condition under which `MBConv` wraps its pipeline in
`MBConvResidual`: `dim_in == dim_out and not downsample`. -/
def mbconvUsesResidual (dimIn dimOut : ℕ) (downsample : Bool) : Bool :=
  dimIn == dimOut && !downsample

/-- `MBConv` as a forward function: the residual wrapper is applied exactly
under `mbconvUsesResidual`. -/
def mbconvFwd {ι : Type} (net : (ι → ℚ) → ι → ℚ) (dimIn dimOut : ℕ)
    (downsample : Bool) (prob : ℚ) (training : Bool) (keepMask : ι → ℚ)
    (x : ι → ℚ) : ι → ℚ :=
  if mbconvUsesResidual dimIn dimOut downsample then
    mbconvResidualFwd net prob training keepMask x
  else net x

/-! ## Value-level embedding of the temporal pipeline (C3, C8, C10)

Real-valued semantics of `posemb_sincos_1d`, the block-causal mask built in
`HLTransformer.forward`, `TransformerAttention.forward`,
`FeedForward.forward` and the `Transformer` stack, in evaluation mode
(dropout layers are the identity).  `masked_fill` with the dtype's most
negative value followed by softmax is modelled as exact exclusion of the
masked entries (they receive weight `0`).  Operations are batch-parallel, so
a single batch element is modelled. -/

/-- `F.layer_norm`'s default epsilon `1e-5`. -/
noncomputable def lnEps : ℝ := 1 / 100000

/-- Mean over the channel axis. -/
noncomputable def chanMean {d : ℕ} (x : Fin d → ℝ) : ℝ :=
  (∑ c, x c) / (d : ℝ)

/-- Biased variance over the channel axis. -/
noncomputable def chanVar {d : ℕ} (x : Fin d → ℝ) : ℝ :=
  (∑ c, (x c - chanMean x) ^ 2) / (d : ℝ)

/-- `LayerNorm.forward`: normalize over the last axis with learnable scale
`γ` and the fixed zero shift. -/
noncomputable def layerNorm {d : ℕ} (γ : Fin d → ℝ) (x : Fin d → ℝ) :
    Fin d → ℝ :=
  fun c => (x c - chanMean x) / Real.sqrt (chanVar x + lnEps) * γ c

/-- The standard Gaussian cumulative distribution function. -/
noncomputable def gaussianCdf (x : ℝ) : ℝ :=
  (Real.sqrt (2 * Real.pi))⁻¹ * ∫ t in Set.Iic x, Real.exp (-(t ^ 2) / 2)

/-- `nn.GELU()` (exact form): `x · Φ(x)`. -/
noncomputable def gelu (x : ℝ) : ℝ := x * gaussianCdf x

/-- The `omega` frequency table of `posemb_sincos_1d(seq, dim, temperature)`:
`arange(dim // 2) / (dim // 2 - 1)` (signed integer subtraction, real
division), then `1 / temperature ** omega`. -/
noncomputable def posembOmega (dim temp : ℕ) (e : ℕ) : ℝ :=
  1 / (temp : ℝ) ^ ((e : ℝ) / (((dim / 2 : ℕ) : ℤ) - 1 : ℝ))

/-- Row `n` of the table returned by `posemb_sincos_1d`: `dim // 2` sine
columns followed by `dim // 2` cosine columns. -/
noncomputable def posembRow (dim temp : ℕ) (n j : ℕ) : ℝ :=
  if j < dim / 2 then Real.sin ((n : ℝ) * posembOmega dim temp j)
  else Real.cos ((n : ℝ) * posembOmega dim temp (j - dim / 2))

/-- Row semantics of `repeat(t, "n d -> (n r) d")`: output row `p` is input
row `p / r`. -/
def repeatRows {β : Type} (r : ℕ) (tbl : ℕ → β) : ℕ → β :=
  fun p => tbl (p / r)

/-- Entry `(i, j)` of `torch.ones(..).triu(k)`: kept iff `j ≥ i + k`. -/
def triuMask (k i j : ℕ) : Bool := decide (i + k ≤ j)

/-- Entry semantics of `repeat(m, "i j -> (i r1) (j r2)")`. -/
def repeatMask (r1 r2 : ℕ) (m : ℕ → ℕ → Bool) : ℕ → ℕ → Bool :=
  fun a b => m (a / r1) (b / r2)

/-- The attention mask handed to the temporal transformer in
`HLTransformer.forward`: the negation of the token-replicated strict
upper-triangular frame mask, so entry `(a, b)` is `true` (key `b` visible to
query `a`) iff it survives `masked_fill`. -/
def hltAttnMask (r : ℕ) (a b : ℕ) : Bool :=
  ! repeatMask r r (triuMask 1) a b

/-- Packed index of head `h`, lane `e` in the flattened `(h d)` axis of the
rearrange "b n (h d) -> b h n d". -/
def headIdx {heads dh : ℕ} (h : Fin heads) (e : Fin dh) : Fin (heads * dh) :=
  ⟨h.val * dh + e.val, by
    have h1 : h.val + 1 ≤ heads := h.isLt
    calc h.val * dh + e.val < h.val * dh + dh := by omega
      _ = (h.val + 1) * dh := by ring
      _ ≤ heads * dh := Nat.mul_le_mul_right dh h1⟩

/-- Parameters of one `TransformerAttention` module: norm scale, `to_q`
weight, the two halves of the single shared `to_kv` projection (one head of
width `dim_head`), and the `to_out` weight. -/
structure TAParams (d dh heads : ℕ) where
  gamma : Fin d → ℝ
  wq : Fin (heads * dh) → Fin d → ℝ
  wk : Fin dh → Fin d → ℝ
  wv : Fin dh → Fin d → ℝ
  wo : Fin d → Fin (heads * dh) → ℝ

/-- The query-side input of `TransformerAttention.forward`: the normalized
input, optionally modulated by the conditioning function (adaptive
layer-norm). -/
noncomputable def taCondNormed {n d dh heads : ℕ} (P : TAParams d dh heads)
    (cond : Option ((Fin d → ℝ) → Fin d → ℝ)) (x : Fin n → Fin d → ℝ)
    (i : Fin n) : Fin d → ℝ :=
  match cond with
  | some f => f (layerNorm P.gamma (x i))
  | none => layerNorm P.gamma (x i)

/-- Per-head queries, already scaled by `dim_head ** -0.5`. -/
noncomputable def taQuery {n d dh heads : ℕ} (P : TAParams d dh heads)
    (cond : Option ((Fin d → ℝ) → Fin d → ℝ)) (x : Fin n → Fin d → ℝ)
    (h : Fin heads) (i : Fin n) (e : Fin dh) : ℝ :=
  (Real.sqrt (dh : ℝ))⁻¹ *
    ∑ c, P.wq (headIdx h e) c * taCondNormed P cond x i c

/-- The single shared key head, computed from the raw input (`kv_input` is
captured before the query normalization). -/
noncomputable def taKey {n d dh heads : ℕ} (P : TAParams d dh heads)
    (x : Fin n → Fin d → ℝ) (j : Fin n) (e : Fin dh) : ℝ :=
  ∑ c, P.wk e c * x j c

/-- The single shared value head, computed from the raw input. -/
noncomputable def taValue {n d dh heads : ℕ} (P : TAParams d dh heads)
    (x : Fin n → Fin d → ℝ) (j : Fin n) (e : Fin dh) : ℝ :=
  ∑ c, P.wv e c * x j c

/-- The similarity `einsum("b h i d, b j d -> b h i j", q, k)`. -/
noncomputable def taSim {n d dh heads : ℕ} (P : TAParams d dh heads)
    (cond : Option ((Fin d → ℝ) → Fin d → ℝ)) (x : Fin n → Fin d → ℝ)
    (h : Fin heads) (i : Fin n) (j : Fin n) : ℝ :=
  ∑ e, taQuery P cond x h i e * taKey P x j e

/-- Whether key `j` stays visible to query `i`: the optional boolean mask
(`masked_fill` removes the `False` entries). -/
def taKeep {n : ℕ} (M : Option (Fin n → Fin n → Bool)) (i j : Fin n) : Bool :=
  match M with
  | some m => m i j
  | none => true

/-- Unnormalized softmax weight after `masked_fill`: masked entries get
weight `0`, visible entries `exp(sim)`. -/
noncomputable def taExpWeight {n d dh heads : ℕ} (P : TAParams d dh heads)
    (M : Option (Fin n → Fin n → Bool))
    (cond : Option ((Fin d → ℝ) → Fin d → ℝ)) (x : Fin n → Fin d → ℝ)
    (h : Fin heads) (i : Fin n) (j : Fin n) : ℝ :=
  if taKeep M i j then Real.exp (taSim P cond x h i j) else 0

/-- The softmax attention row. -/
noncomputable def taAttn {n d dh heads : ℕ} (P : TAParams d dh heads)
    (M : Option (Fin n → Fin n → Bool))
    (cond : Option ((Fin d → ℝ) → Fin d → ℝ)) (x : Fin n → Fin d → ℝ)
    (h : Fin heads) (i : Fin n) (j : Fin n) : ℝ :=
  taExpWeight P M cond x h i j / ∑ j', taExpWeight P M cond x h i j'

/-- `TransformerAttention.forward` in evaluation mode, with no external
context, no attention bias and `causal=False` (the configuration used by
`Transformer`): keys and values are computed from the raw input (captured
before the query normalization), queries from the normalized and optionally
condition-modulated input; the optional boolean mask excludes keys from the
softmax; the head outputs are merged and projected out by `to_out`. -/
noncomputable def taForward {n d dh heads : ℕ} (P : TAParams d dh heads)
    (M : Option (Fin n → Fin n → Bool))
    (cond : Option ((Fin d → ℝ) → Fin d → ℝ))
    (x : Fin n → Fin d → ℝ) : Fin n → Fin d → ℝ :=
  fun i c => ∑ h, ∑ e, P.wo c (headIdx h e) *
    ∑ j, taAttn P M cond x h i j * taValue P x j e

/-- Parameters of one `FeedForward` module (`mult = 4`, as built by
`Transformer`): norm scale, expansion weight and bias, projection weight and
bias. -/
structure FFParams (d : ℕ) where
  gamma : Fin d → ℝ
  w1 : Fin (4 * d) → Fin d → ℝ
  b1 : Fin (4 * d) → ℝ
  w2 : Fin d → Fin (4 * d) → ℝ
  b2 : Fin d → ℝ

/-- `FeedForward.forward` in evaluation mode: normalize, optionally
condition-modulate, expand, GELU, project back. -/
noncomputable def ffForward {d : ℕ} (P : FFParams d)
    (cond : Option ((Fin d → ℝ) → Fin d → ℝ)) (x : Fin d → ℝ) :
    Fin d → ℝ :=
  let xn := layerNorm P.gamma x
  let xc : Fin d → ℝ :=
    match cond with
    | some f => f xn
    | none => xn
  let mid : Fin (4 * d) → ℝ :=
    fun m => gelu ((∑ c, P.w1 m c * xc c) + P.b1 m)
  fun c => (∑ m, P.w2 c m * mid m) + P.b2 c

/-- Parameters and conditioning functions of one `Transformer` layer. -/
structure TLayerParams (d dh heads : ℕ) where
  attn : TAParams d dh heads
  attnCond : Option ((Fin d → ℝ) → Fin d → ℝ)
  ff : FFParams d
  ffCond : Option ((Fin d → ℝ) → Fin d → ℝ)

/-- One `Transformer` layer:
`x = attn(x, attn_mask, cond_fn) + x; x = ff(x, cond_fn) + x`. -/
noncomputable def transformerLayer {n d dh heads : ℕ}
    (L : TLayerParams d dh heads) (M : Fin n → Fin n → Bool)
    (x : Fin n → Fin d → ℝ) : Fin n → Fin d → ℝ :=
  let x1 : Fin n → Fin d → ℝ :=
    fun i c => taForward L.attn (some M) L.attnCond x i c + x i c
  fun i c => ffForward L.ff L.ffCond (x1 i) c + x1 i c

/-- The `Transformer` stack. -/
noncomputable def transformerStack {n d dh heads : ℕ} :
    List (TLayerParams d dh heads) → (Fin n → Fin n → Bool) →
      (Fin n → Fin d → ℝ) → Fin n → Fin d → ℝ
  | [], _, x => x
  | L :: rest, M, x => transformerStack rest M (transformerLayer L M x)

/-- The temporal pipeline of `HLTransformer.forward` from per-frame content
to the mean-pooled vector of frame `F`.  `φ` stands for the per-frame,
evaluation-mode vision pipeline (pack frames into the batch, MaxViT in
embedding mode, unpack, token learner — all batch-parallel), mapping frame
content to its `r` learned tokens; the tokens are flattened frame-major,
the sinusoidal frame positional embedding is added, the transformer runs
under the block-causal mask, and frame `F`'s `r` attended tokens are
averaged. -/
noncomputable def hltTemporalPooled {α : Type} (f r d dh heads : ℕ)
    (layers : List (TLayerParams d dh heads))
    (φ : α → ℕ → Fin d → ℝ) (v : ℕ → α) (F : ℕ) (hF : F < f) :
    Fin d → ℝ :=
  let tokens : Fin (f * r) → Fin d → ℝ :=
    fun p c => φ (v (p.val / r)) (p.val % r) c
  let x0 : Fin (f * r) → Fin d → ℝ :=
    fun p c => tokens p c + repeatRows r (posembRow d 10000) p.val c.val
  let xL := transformerStack layers (fun a b => hltAttnMask r a.val b.val) x0
  fun c =>
    (∑ t : Fin r, xL ⟨F * r + t.val, by
      have h1 : F + 1 ≤ f := hF
      calc F * r + t.val < F * r + r := by omega
        _ = (F + 1) * r := by ring
        _ ≤ f * r := Nat.mul_le_mul_right r h1⟩ c) / (r : ℝ)

/-- A reference multi-head attention with per-head key/value projections
`wkh`, `wvh`, following the same normalization scheme as
`TransformerAttention` (queries from the normalized input, keys and values
from the raw input), written per head throughout. -/
noncomputable def multiHeadAttention {n d dh heads : ℕ}
    (γ : Fin d → ℝ) (wq : Fin (heads * dh) → Fin d → ℝ)
    (wkh wvh : Fin heads → Fin dh → Fin d → ℝ)
    (wo : Fin d → Fin (heads * dh) → ℝ)
    (x : Fin n → Fin d → ℝ) : Fin n → Fin d → ℝ :=
  let xn : Fin n → Fin d → ℝ := fun i => layerNorm γ (x i)
  let scale : ℝ := (Real.sqrt (dh : ℝ))⁻¹
  let q : Fin heads → Fin n → Fin dh → ℝ :=
    fun h i e => scale * ∑ c, wq (headIdx h e) c * xn i c
  let k : Fin heads → Fin n → Fin dh → ℝ :=
    fun h j e => ∑ c, wkh h e c * x j c
  let v : Fin heads → Fin n → Fin dh → ℝ :=
    fun h j e => ∑ c, wvh h e c * x j c
  let expWeight : Fin heads → Fin n → Fin n → ℝ :=
    fun h i j => Real.exp (∑ e, q h i e * k h j e)
  let attn : Fin heads → Fin n → Fin n → ℝ :=
    fun h i j => expWeight h i j / ∑ j', expWeight h i j'
  fun i c => ∑ h, ∑ e, wo c (headIdx h e) * ∑ j, attn h i j * v h j e

/-! ## Theorems -/

/-- Helper: the post-assert part of the modelled forward can only produce an
`ok` result or a shape error, never the mutual-exclusion error. -/
theorem shapeResult_ne_condInput (o : Option (ℕ × ℕ × ℕ × ℕ)) :
    (match o with
      | some s => (Except.ok s : Except HltErr (ℕ × ℕ × ℕ × ℕ))
      | none => Except.error HltErr.shape) ≠ Except.error HltErr.condInput := by
  cases o <;> simp

/-- C2: `HLTransformer.forward` fails (raises an error) whenever neither or
both of `texts` and `text_embeds` are supplied — its first statement is
`assert exists(texts) ^ exists(text_embeds)` — and when exactly one of them
is supplied that precondition check passes, so the forward cannot fail with
the mutual-exclusion error (any remaining failure is a shape error). -/
theorem hltForward_texts_xor_embeds
    (channels stemDim dim dimHead w : ℕ) (depth : List ℕ)
    (tDepth g numActions actionBins : ℕ) (ht he : Bool) (b c f h wImg : ℕ) :
    ((ht ^^ he) = false →
      hltForwardShape channels stemDim dim dimHead w depth tDepth g
        numActions actionBins ht he b c f h wImg = .error .condInput) ∧
    ((ht ^^ he) = true →
      hltForwardShape channels stemDim dim dimHead w depth tDepth g
        numActions actionBins ht he b c f h wImg ≠ .error .condInput) := by
  constructor
  · intro hx
    simp [hltForwardShape, hx]
  · intro hx
    rw [hltForwardShape, if_pos hx]
    exact shapeResult_ne_condInput _

/-- Witness for C2 at a concrete configuration: both inputs supplied is an
error; exactly one supplied never yields the mutual-exclusion error. -/
theorem hltForward_texts_xor_embeds_witness :
    ((true ^^ true) = false ∧
      hltForwardShape 3 64 96 32 7 [2, 2, 5, 2] 6 8 11 256 true true
        2 3 6 224 224 = .error .condInput) ∧
    ((true ^^ false) = true ∧
      hltForwardShape 3 64 96 32 7 [2, 2, 5, 2] 6 8 11 256 true false
        2 3 6 224 224 ≠ .error .condInput) :=
  ⟨⟨by decide,
      (hltForward_texts_xor_embeds 3 64 96 32 7 [2, 2, 5, 2] 6 8 11 256
        true true 2 3 6 224 224).1 (by decide)⟩,
    ⟨by decide,
      (hltForward_texts_xor_embeds 3 64 96 32 7 [2, 2, 5, 2] 6 8 11 256
        true false 2 3 6 224 224).2 (by decide)⟩⟩

/-- C4: for window size `w ≥ 1` the relative-position bias table has exactly
`(2w − 1)²` rows, every entry of the precomputed `rel_pos_indices` table
(over all pairs of the `w·w` flattened window positions) lies in
`[0, (2w − 1)²)`, and the bias rows prepended for the memory key/value
positions are zero. -/
theorem relPos_table_and_index_bounds (w : ℕ) (hw : 1 ≤ w) :
    relPosTableSize w = (2 * w - 1) ^ 2 ∧
    (∀ i j : ℕ, i < w * w → j < w * w →
      0 ≤ relPosIndex w i j ∧ relPosIndex w i j < ((2 * w - 1) ^ 2 : ℕ)) ∧
    (∀ (numMem : ℕ) (bias : ℕ → ℕ → ℝ) (i j : ℕ), j < numMem →
      paddedBias numMem bias i j = 0) := by
  refine ⟨rfl, ?_, ?_⟩
  · intro i j hi hj
    have hri : gridRow w i < w := Nat.div_lt_of_lt_mul hi
    have hrj : gridRow w j < w := Nat.div_lt_of_lt_mul hj
    have hci : gridCol w i < w := Nat.mod_lt _ (by omega)
    have hcj : gridCol w j < w := Nat.mod_lt _ (by omega)
    rw [relPosIndex, show ((w - 1 : ℕ) : ℤ) = (w : ℤ) - 1 by omega,
      show ((2 * w - 1 : ℕ) : ℤ) = 2 * (w : ℤ) - 1 by omega,
      show (((2 * w - 1) ^ 2 : ℕ) : ℤ) = (2 * (w : ℤ) - 1) ^ 2 by
        push_cast [Nat.cast_sub (by omega : 1 ≤ 2 * w)]; ring]
    set M : ℤ := 2 * (w : ℤ) - 1 with hM
    set A : ℤ := (gridRow w i : ℤ) - (gridRow w j : ℤ) + ((w : ℤ) - 1) with hA
    set B : ℤ := (gridCol w i : ℤ) - (gridCol w j : ℤ) + ((w : ℤ) - 1) with hB
    have hA0 : 0 ≤ A := by omega
    have hA1 : A ≤ M - 1 := by omega
    have hB0 : 0 ≤ B := by omega
    have hB1 : B ≤ M - 1 := by omega
    have hM0 : 0 ≤ M := by omega
    constructor
    · have := mul_le_mul_of_nonneg_right hA0 hM0
      positivity
    · have h1 : A * M ≤ (M - 1) * M := mul_le_mul_of_nonneg_right hA1 hM0
      have h2 : A * M + B ≤ (M - 1) * M + (M - 1) := add_le_add h1 hB1
      have h3 : (M - 1) * M + (M - 1) = M ^ 2 - 1 := by ring
      omega
  · intro numMem bias i j hj
    simp [paddedBias, hj]

/-- Witness for C4 at window size 3: the index for the pair of window
positions 0 and 8 is in range, and a memory key position gets zero bias. -/
theorem relPos_table_and_index_bounds_witness :
    1 ≤ 3 ∧
      (0 ≤ relPosIndex 3 0 8 ∧ relPosIndex 3 0 8 < ((2 * 3 - 1) ^ 2 : ℕ)) ∧
      paddedBias 4 (fun _ _ => (7 : ℝ)) 5 2 = 0 :=
  ⟨by decide,
    (relPos_table_and_index_bounds 3 (by decide)).2.1 0 8 (by decide)
      (by decide),
    (relPos_table_and_index_bounds 3 (by decide)).2.2 4 (fun _ _ => (7 : ℝ))
      5 2 (by decide)⟩

/-- Helper: the token-learner shape result on a channel-matching input. -/
theorem tokenLearnerShape_ok (dim ffMult g : ℕ) (lead : List ℕ)
    (h w : ℕ) (hg : 0 < g) :
    tokenLearnerShape dim ffMult g lead dim h w = some (lead ++ [dim, g]) := by
  rw [tokenLearnerShape, if_pos]
  exact ⟨hg, mul_comm g dim, dvd_mul_left g dim, dvd_mul_left g (dim * ffMult)⟩

/-- C6: for a `TokenLearner(dim, ff_mult, num_output_tokens)` with a positive
token count, any input whose trailing axes are `(dim, h, w)` — with arbitrary
leading axes, covering both batch-only and batch×frame — yields exactly
`num_output_tokens` feature vectors of width `dim` per item, the leading
axes preserved. -/
theorem tokenLearner_output_tokens (dim ffMult g : ℕ) (lead : List ℕ)
    (h w : ℕ) (hg : 0 < g) :
    tokenLearnerShape dim ffMult g lead dim h w = some (lead ++ [dim, g]) :=
  tokenLearnerShape_ok dim ffMult g lead h w hg

/-- Witness for C6: a batch×frame input of the example configuration. -/
theorem tokenLearner_output_tokens_witness :
    0 < 8 ∧
      tokenLearnerShape 768 2 8 [2, 6] 768 7 7 = some [2, 6, 768, 8] :=
  ⟨by decide, tokenLearner_output_tokens 768 2 8 [2, 6] 7 7 (by decide)⟩

/-- C7: `MBConv` wraps its pipeline in `MBConvResidual` exactly when
`dim_in == dim_out` and no downsampling; in evaluation mode or at drop
probability zero the `Dropsample` step is the identity, so the residual
output is exactly `branch(x) + x`. -/
theorem mbconv_residual_iff_eval_identity {ι : Type}
    (net : (ι → ℚ) → ι → ℚ) (dimIn dimOut : ℕ) (ds : Bool)
    (prob : ℚ) (training : Bool) (keepMask : ι → ℚ) (x : ι → ℚ) :
    (mbconvUsesResidual dimIn dimOut ds = true ↔
      dimIn = dimOut ∧ ds = false) ∧
    (prob = 0 ∨ training = false →
      dropsample prob training keepMask (net x) = net x) ∧
    (prob = 0 ∨ training = false → dimIn = dimOut → ds = false →
      mbconvFwd net dimIn dimOut ds prob training keepMask x = net x + x) := by
  refine ⟨?_, ?_, ?_⟩
  · simp [mbconvUsesResidual, Bool.and_eq_true, Bool.not_eq_true']
  · intro hp
    rw [dropsample, if_pos hp]
  · intro hp hdim hds
    rw [mbconvFwd, if_pos (by simp [mbconvUsesResidual, hdim, hds]),
      mbconvResidualFwd, dropsample, if_pos hp]

/-- Witness for C7: a matching-width, non-downsampling block in evaluation
mode adds the branch output to its input. -/
theorem mbconv_residual_iff_eval_identity_witness :
    ((0 : ℚ) = 0 ∨ false = false) ∧
      mbconvFwd (fun v => v) 64 64 false 0 false (fun _ => 1)
          (fun _ : Fin 1 => (2 : ℚ)) =
        (fun v => v) (fun _ : Fin 1 => (2 : ℚ)) + (fun _ : Fin 1 => (2 : ℚ)) :=
  ⟨Or.inl rfl,
    (mbconv_residual_iff_eval_identity (fun v => v) 64 64 false 0 false
      (fun _ => 1) (fun _ : Fin 1 => (2 : ℚ))).2.2 (Or.inl rfl) rfl rfl⟩

/-- Helper: with an empty conditioning sequence the cursor is irrelevant and
every stage of the `MaxViT` loop runs unconditioned. -/
theorem maxvitFwdIdx_nil {α : Type} (stages : List (α → α)) :
    ∀ (i : ℕ) (x : α),
      maxvitFwdIdx ([] : List (α → α)) i stages x =
        maxvitFwdCond stages [] x := by
  induction stages with
  | nil => intro i x; rfl
  | cons s ss ih =>
      intro i x
      rw [maxvitFwdIdx, maxvitFwdCond, ih]
      simp only [List.get?_nil, Option.getD_none, id_eq]

/-- Helper: shifting the cursor past a consumed conditioning function. -/
theorem maxvitFwdIdx_shift {α : Type} (c : α → α) (cs : List (α → α))
    (stages : List (α → α)) :
    ∀ (i : ℕ) (x : α),
      maxvitFwdIdx (c :: cs) (i + 1) stages x = maxvitFwdIdx cs i stages x := by
  induction stages with
  | nil => intro i x; rfl
  | cons s ss ih =>
      intro i x
      rw [maxvitFwdIdx, maxvitFwdIdx]
      simp only [List.get?_cons_succ]
      rw [ih]

/-- Helper: `MaxViT.forward`'s iterator consumption agrees with indexed
access into the supplied conditioning sequence. -/
theorem maxvitFwdCond_eq_idx {α : Type} (stages : List (α → α)) :
    ∀ (condFns : List (α → α)) (x : α),
      maxvitFwdCond stages condFns x = maxvitFwdIdx condFns 0 stages x := by
  intro condFns x
  cases condFns with
  | nil => rw [maxvitFwdIdx_nil]
  | cons c cs =>
      cases stages with
      | nil => rfl
      | cons s ss =>
          rw [maxvitFwdCond, maxvitFwdIdx]
          simp only [List.get?_cons_zero, Option.getD_some]
          rw [maxvitFwdIdx_shift, ← maxvitFwdCond_eq_idx ss cs]

/-- Helper: with an empty conditioning sequence the cursor is irrelevant and
every sub-layer of the `Transformer` loop runs unconditioned. -/
theorem transformerFwdIdx_nil {α : Type}
    (layers : List ((α → Option (α → α) → α) × (α → Option (α → α) → α))) :
    ∀ (i : ℕ) (x : α),
      transformerFwdIdx ([] : List (α → α)) i layers x =
        transformerFwdCond layers [] x := by
  induction layers with
  | nil => intro i x; rfl
  | cons l ls ih =>
      intro i x
      obtain ⟨attn, ff⟩ := l
      rw [transformerFwdIdx, transformerFwdCond, ih]
      simp only [List.get?_nil, List.head?_nil, List.tail_nil]

/-- Helper: shifting the cursor past a consumed pair of conditioning
functions in the transformer loop. -/
theorem transformerFwdIdx_shift {α : Type} (c1 c2 : α → α)
    (cs : List (α → α))
    (layers : List ((α → Option (α → α) → α) × (α → Option (α → α) → α))) :
    ∀ (i : ℕ) (x : α),
      transformerFwdIdx (c1 :: c2 :: cs) (i + 1) layers x =
        transformerFwdIdx cs i layers x := by
  induction layers with
  | nil => intro i x; rfl
  | cons l ls ih =>
      intro i x
      obtain ⟨attn, ff⟩ := l
      rw [transformerFwdIdx, transformerFwdIdx]
      rw [show (2 : ℕ) * (i + 1) = 2 * i + 1 + 1 from by ring]
      simp only [List.get?_cons_succ]
      rw [ih]

/-- Helper: the same shift when only one function remains: both cursors are
already past the end. -/
theorem transformerFwdIdx_shift_one {α : Type} (c1 : α → α)
    (layers : List ((α → Option (α → α) → α) × (α → Option (α → α) → α))) :
    ∀ (i : ℕ) (x : α),
      transformerFwdIdx [c1] (i + 1) layers x =
        transformerFwdIdx ([] : List (α → α)) i layers x := by
  induction layers with
  | nil => intro i x; rfl
  | cons l ls ih =>
      intro i x
      obtain ⟨attn, ff⟩ := l
      rw [transformerFwdIdx, transformerFwdIdx]
      rw [show (2 : ℕ) * (i + 1) = 2 * i + 1 + 1 from by ring]
      simp only [List.get?_cons_succ, List.get?_nil]
      rw [ih]

/-- Helper: `Transformer.forward`'s iterator consumption (two functions per
layer) agrees with indexed access into the supplied sequence. -/
theorem transformerFwdCond_eq_idx {α : Type}
    (layers : List ((α → Option (α → α) → α) × (α → Option (α → α) → α))) :
    ∀ (condFns : List (α → α)) (x : α),
      transformerFwdCond layers condFns x =
        transformerFwdIdx condFns 0 layers x := by
  intro condFns x
  match condFns with
  | [] => rw [transformerFwdIdx_nil]
  | [c1] =>
      cases layers with
      | nil => rfl
      | cons l ls =>
          obtain ⟨attn, ff⟩ := l
          rw [transformerFwdCond, transformerFwdIdx]
          simp only [Nat.mul_zero, List.head?_cons, List.tail_cons,
            List.head?_nil, List.tail_nil, List.get?_cons_zero,
            List.get?_cons_succ, List.get?_nil, Option.getD_some]
          rw [transformerFwdIdx_shift_one, transformerFwdIdx_nil]
  | c1 :: c2 :: cs =>
      cases layers with
      | nil => rfl
      | cons l ls =>
          obtain ⟨attn, ff⟩ := l
          rw [transformerFwdCond, transformerFwdIdx]
          simp only [Nat.mul_zero, List.head?_cons, List.tail_cons,
            List.get?_cons_zero, List.get?_cons_succ, Option.getD_some]
          rw [transformerFwdIdx_shift, ← transformerFwdCond_eq_idx ls cs]

/-- C9: exhausting the conditioning-function sequence is a silent no-op:
both forward loops equal their indexed reformulation, in which the consumer
at cursor `i` applies `condFns[i]?` defaulted to the identity — so every
consumer beyond the end of the sequence runs unconditioned — and with no
conditioning functions at all both loops compute the plain unconditioned
fold of their stages / sub-layers. -/
theorem cond_fns_exhaustion_no_op {α : Type}
    (stages condFns : List (α → α))
    (layers : List ((α → Option (α → α) → α) × (α → Option (α → α) → α)))
    (tCondFns : List (α → α)) (x y z u : α) :
    (maxvitFwdCond stages condFns x = maxvitFwdIdx condFns 0 stages x) ∧
    (maxvitFwdCond stages [] y = stages.foldl (fun a s => s a) y) ∧
    (transformerFwdCond layers tCondFns z =
      transformerFwdIdx tCondFns 0 layers z) ∧
    (transformerFwdCond layers [] u =
      layers.foldl (fun a p => p.2 (p.1 a none) none) u) ∧
    (∀ i : ℕ, condFns.length ≤ i → (condFns.get? i).getD id = id) := by
  refine ⟨maxvitFwdCond_eq_idx stages condFns x, ?_,
    transformerFwdCond_eq_idx layers tCondFns z, ?_, ?_⟩
  · induction stages generalizing y with
    | nil => rfl
    | cons s ss ih => rw [maxvitFwdCond, List.foldl_cons, ih]
  · induction layers generalizing u with
    | nil => rfl
    | cons l ls ih =>
        obtain ⟨attn, ff⟩ := l
        rw [transformerFwdCond, List.foldl_cons]
        simp only [List.head?_nil, List.tail_nil]
        exact ih _
  · intro i hi
    rw [List.get?_eq_none.mpr hi, Option.getD_none]

/-- Witness for C9: with one conditioning function and two stages, the
consumer at cursor 1 (beyond the end) runs unconditioned. -/
theorem cond_fns_exhaustion_no_op_witness :
    [fun t : ℕ => t + 10].length ≤ 1 ∧
      (([fun t : ℕ => t + 10].get? 1).getD id) = id :=
  ⟨by decide,
    (cond_fns_exhaustion_no_op [fun t : ℕ => t + 1, fun t => t * 2]
      [fun t => t + 10]
      [(fun a c => (c.getD id) a, fun a c => (c.getD id) a)]
      [] 0 0 0 0).2.2.2.2 1 (by decide)⟩

/-- Helper: windowed attention preserves the shape of a six-axis input whose
window axes equal the module's configured window size. -/
theorem attnShape_self (dim dimHead ws numMem b x y : ℕ)
    (h1 : dimHead ∣ dim) (h2 : 0 < dimHead) :
    attnShape dim dimHead ws numMem ⟨b, x, y, ws, ws, dim⟩ =
      some ⟨b, x, y, ws, ws, dim⟩ := by
  simp [attnShape, broadcastDim, h1, h2, Nat.div_mul_cancel h1]

/-- C5 (counterexample): an `Attention` module with `window_size = 2` (and
`dim = 2`, `dim_head = 2`, so the channel axis is divisible by `dim_head`),
applied to a six-axis input with 1×1 window axes, fails — the relative
position bias of shape `(heads, 4, 4 + 4)` cannot be broadcast onto the
similarity of shape `(B, heads, 1, 4 + 1)` — instead of returning the input
shape. -/
theorem attn_shape_any_window_cex :
    2 ∣ 2 ∧
      attnShape 2 2 2 4 ⟨1, 1, 1, 1, 1, 2⟩ ≠ some ⟨1, 1, 1, 1, 1, 2⟩ := by
  decide

/-- C5 (amended): for every six-axis input tensor whose channel axis equals
the module's `dim` with `dim_head ∣ dim`, and whose window axes equal the
module's configured `window_size`, windowed `Attention.forward` returns
exactly the input shape. -/
theorem attn_windowed_shape_preserved (dim dimHead ws numMem b x y : ℕ)
    (h1 : dimHead ∣ dim) (h2 : 0 < dimHead) :
    attnShape dim dimHead ws numMem ⟨b, x, y, ws, ws, dim⟩ =
      some ⟨b, x, y, ws, ws, dim⟩ :=
  attnShape_self dim dimHead ws numMem b x y h1 h2

/-- Witness for the amended C5 at the example configuration
(`dim = 96`, `dim_head = 32`, `window_size = 7`). -/
theorem attn_windowed_shape_preserved_witness :
    (32 ∣ 96 ∧ 0 < 32) ∧
      attnShape 96 32 7 4 ⟨2, 4, 4, 7, 7, 96⟩ = some ⟨2, 4, 4, 7, 7, 96⟩ :=
  ⟨⟨by decide, by decide⟩,
    attn_windowed_shape_preserved 96 32 7 4 2 4 4 (by decide) (by decide)⟩

/-- Helper: 1×1 convolution (stride 1, no padding) preserves a positive
extent. -/
theorem convOut_one (n : ℕ) (h : 0 < n) : convOut n 1 1 0 = n := by
  simp [convOut]; omega

/-- Helper: 3×3 convolution with stride 1 and padding 1 preserves a positive
extent. -/
theorem convOut_three_one (n : ℕ) (h : 0 < n) : convOut n 3 1 1 = n := by
  simp [convOut]; omega

/-- Helper: 3×3 convolution with stride 2 and padding 1 halves a positive
even extent. -/
theorem convOut_three_two (n : ℕ) (h2 : 2 ∣ n) (h : 0 < n) :
    convOut n 3 2 1 = n / 2 := by
  simp only [convOut]
  omega

/-- Helper: a downsampling `MBConv` halves the spatial extents. -/
theorem mbconvShape_down (din dout H W : ℕ) (h2H : 2 ∣ H) (h2W : 2 ∣ W)
    (hH : 0 < H) (hW : 0 < W) :
    mbconvShape din dout true 4 ⟨din, H, W⟩ = some ⟨dout, H / 2, W / 2⟩ := by
  simp [mbconvShape, conv2dShape, seShape,
    convOut_one, convOut_three_two, h2H, h2W, hH, hW,
    convOut_one _ (Nat.div_pos (by omega) (by norm_num) : 0 < H / 2),
    convOut_one _ (Nat.div_pos (by omega) (by norm_num) : 0 < W / 2)]

/-- Helper: a non-downsampling `MBConv` with matching widths preserves the
shape (and its residual shape check succeeds). -/
theorem mbconvShape_pres (dout H W : ℕ) (hH : 0 < H) (hW : 0 < W) :
    mbconvShape dout dout false 4 ⟨dout, H, W⟩ = some ⟨dout, H, W⟩ := by
  simp [mbconvShape, conv2dShape, seShape, convOut_one, convOut_three_one,
    hH, hW]

/-- Helper: a non-downsampling stage block preserves the shape when the
extents are multiples of the window size. -/
theorem blockShape_pres (B dout w dimHead H W : ℕ)
    (hw : 0 < w) (hdh : 0 < dimHead) (hdvd : dimHead ∣ dout)
    (hH : 0 < H) (hW : 0 < W) (hwH : w ∣ H) (hwW : w ∣ W) :
    blockShape B dout dout w dimHead false ⟨dout, H, W⟩ =
      some ⟨dout, H, W⟩ := by
  rw [blockShape, mbconvShape_pres dout H W hH hW, Option.some_bind,
    windowRearrangeShape, if_pos ⟨hw, hwH, hwW⟩, Option.some_bind,
    attnShape_self dout dimHead w 4 B (H / w) (W / w) hdvd hdh,
    Option.some_bind, if_pos rfl, ffShape6, if_pos rfl, Option.some_bind]
  simp only [Nat.div_mul_cancel hwH, Nat.div_mul_cancel hwW]
  rw [windowRearrangeShape, if_pos ⟨hw, hwH, hwW⟩, Option.some_bind,
    attnShape_self dout dimHead w 4 B (H / w) (W / w) hdvd hdh,
    Option.some_bind, if_pos rfl, ffShape6, if_pos rfl, Option.some_bind]
  simp only [Nat.mul_div_cancel' hwH, Nat.mul_div_cancel' hwW]

/-- Helper: a downsampling stage block halves the spatial extents when the
halved extents are multiples of the window size. -/
theorem blockShape_down (B din dout w dimHead H W : ℕ)
    (hw : 0 < w) (hdh : 0 < dimHead) (hdvd : dimHead ∣ dout)
    (h2H : 2 ∣ H) (h2W : 2 ∣ W) (hH : 0 < H) (hW : 0 < W)
    (hwH : w ∣ H / 2) (hwW : w ∣ W / 2) :
    blockShape B din dout w dimHead true ⟨din, H, W⟩ =
      some ⟨dout, H / 2, W / 2⟩ := by
  have hH2 : 0 < H / 2 := Nat.div_pos (by omega) (by norm_num)
  have hW2 : 0 < W / 2 := Nat.div_pos (by omega) (by norm_num)
  rw [blockShape, mbconvShape_down din dout H W h2H h2W hH hW,
    Option.some_bind,
    windowRearrangeShape, if_pos ⟨hw, hwH, hwW⟩, Option.some_bind,
    attnShape_self dout dimHead w 4 B (H / 2 / w) (W / 2 / w) hdvd hdh,
    Option.some_bind, if_pos rfl, ffShape6, if_pos rfl, Option.some_bind]
  simp only [Nat.div_mul_cancel hwH, Nat.div_mul_cancel hwW]
  rw [windowRearrangeShape, if_pos ⟨hw, hwH, hwW⟩, Option.some_bind,
    attnShape_self dout dimHead w 4 B (H / 2 / w) (W / 2 / w) hdvd hdh,
    Option.some_bind, if_pos rfl, ffShape6, if_pos rfl, Option.some_bind]
  simp only [Nat.mul_div_cancel' hwH, Nat.mul_div_cancel' hwW]

/-- Helper: the trailing non-downsampling blocks of a stage preserve the
shape. -/
theorem repBlocksShape_pres (B dout w dimHead : ℕ)
    (hw : 0 < w) (hdh : 0 < dimHead) (hdvd : dimHead ∣ dout) :
    ∀ (n H W : ℕ), 0 < H → 0 < W → w ∣ H → w ∣ W →
      repBlocksShape B dout w dimHead n ⟨dout, H, W⟩ = some ⟨dout, H, W⟩ := by
  intro n
  induction n with
  | zero => intro H W _ _ _ _; rfl
  | succ m ih =>
      intro H W hH hW hwH hwW
      rw [repBlocksShape,
        blockShape_pres B dout w dimHead H W hw hdh hdvd hH hW hwH hwW,
        Option.some_bind, ih H W hH hW hwH hwW]

/-- Helper: a stage of positive depth downsamples once and keeps the
remaining blocks shape-stable. -/
theorem stageShape_ok (B din dout w dimHead n : ℕ) (hn : 0 < n)
    (hw : 0 < w) (hdh : 0 < dimHead) (hdvd : dimHead ∣ dout)
    (H W : ℕ) (h2H : 2 ∣ H) (h2W : 2 ∣ W) (hH : 0 < H) (hW : 0 < W)
    (hwH : w ∣ H / 2) (hwW : w ∣ W / 2) :
    stageShape B din dout w dimHead n ⟨din, H, W⟩ =
      some ⟨dout, H / 2, W / 2⟩ := by
  have hH2 : 0 < H / 2 := Nat.div_pos (by omega) (by norm_num)
  have hW2 : 0 < W / 2 := Nat.div_pos (by omega) (by norm_num)
  match n, hn with
  | m + 1, _ =>
      rw [stageShape,
        blockShape_down B din dout w dimHead H W hw hdh hdvd h2H h2W hH hW
          hwH hwW,
        Option.some_bind,
        repBlocksShape_pres B dout w dimHead hw hdh hdvd m (H / 2) (W / 2)
          hH2 hW2 hwH hwW]

/-- Helper: the full stage sequence divides both extents by `2^stages`,
ending at the last stage's width, provided the input extents are divisible
by `2^stages · w`. -/
theorem stagesShape_ok (B w dimHead : ℕ) (hw : 0 < w) (hdh : 0 < dimHead) :
    ∀ (L : List (ℕ × ℕ)) (din H W : ℕ),
      (∀ p ∈ L, 0 < p.2 ∧ dimHead ∣ p.1) →
      0 < H → 0 < W → 2 ^ L.length * w ∣ H → 2 ^ L.length * w ∣ W →
      stagesShape B w dimHead din L ⟨din, H, W⟩ =
        some ⟨stagesLastDim din L, H / 2 ^ L.length, W / 2 ^ L.length⟩ := by
  intro L
  induction L with
  | nil =>
      intro din H W _ _ _ _ _
      simp [stagesShape, stagesLastDim]
  | cons p rest ih =>
      obtain ⟨dout, n⟩ := p
      intro din H W hmem hH hW hdivH hdivW
      obtain ⟨hn, hdvd⟩ := hmem (dout, n) (List.mem_cons_self _ _)
      have hlen : ((dout, n) :: rest).length = rest.length + 1 := rfl
      rw [hlen] at hdivH hdivW
      obtain ⟨mH, hmH⟩ := hdivH
      obtain ⟨mW, hmW⟩ := hdivW
      have h2H : 2 ∣ H := ⟨2 ^ rest.length * w * mH, by rw [hmH]; ring⟩
      have h2W : 2 ∣ W := ⟨2 ^ rest.length * w * mW, by rw [hmW]; ring⟩
      have hH2 : H / 2 = 2 ^ rest.length * w * mH := by
        rw [hmH, show 2 ^ (rest.length + 1) * w * mH =
          2 * (2 ^ rest.length * w * mH) from by ring]
        exact Nat.mul_div_cancel_left _ (by norm_num)
      have hW2 : W / 2 = 2 ^ rest.length * w * mW := by
        rw [hmW, show 2 ^ (rest.length + 1) * w * mW =
          2 * (2 ^ rest.length * w * mW) from by ring]
        exact Nat.mul_div_cancel_left _ (by norm_num)
      have hwH : w ∣ H / 2 := ⟨2 ^ rest.length * mH, by rw [hH2]; ring⟩
      have hwW : w ∣ W / 2 := ⟨2 ^ rest.length * mW, by rw [hW2]; ring⟩
      have hdivH2 : 2 ^ rest.length * w ∣ H / 2 := ⟨mH, hH2⟩
      have hdivW2 : 2 ^ rest.length * w ∣ W / 2 := ⟨mW, hW2⟩
      have hH2pos : 0 < H / 2 := Nat.div_pos (by omega) (by norm_num)
      have hW2pos : 0 < W / 2 := Nat.div_pos (by omega) (by norm_num)
      rw [stagesShape,
        stageShape_ok B din dout w dimHead n hn hw hdh hdvd H W h2H h2W hH hW
          hwH hwW,
        Option.some_bind,
        ih dout (H / 2) (W / 2)
          (fun q hq => hmem q (List.mem_cons_of_mem _ hq))
          hH2pos hW2pos hdivH2 hdivW2]
      have hdd : ∀ X : ℕ, X / 2 / 2 ^ rest.length = X / 2 ^ (rest.length + 1) :=
        fun X => by
          rw [Nat.div_div_eq_div_mul,
            show 2 * 2 ^ rest.length = 2 ^ (rest.length + 1) from by ring]
      rw [hdd H, hdd W]
      rfl

/-- Helper: the convolutional stem halves positive even extents. -/
theorem stemShape_ok (channels stemDim H W : ℕ)
    (h2H : 2 ∣ H) (h2W : 2 ∣ W) (hH : 0 < H) (hW : 0 < W) :
    stemShape channels stemDim ⟨channels, H, W⟩ =
      some ⟨stemDim, H / 2, W / 2⟩ := by
  have hH2 : 0 < H / 2 := Nat.div_pos (by omega) (by norm_num)
  have hW2 : 0 < W / 2 := Nat.div_pos (by omega) (by norm_num)
  simp [stemShape, conv2dShape, convOut_three_two, convOut_three_one,
    h2H, h2W, hH, hW, hH2, hW2]

/-- Helper: the carried last width over the zipped (width, depth) list is the
last entry of the width list. -/
theorem stagesLastDim_zip :
    ∀ (ds ns : List ℕ) (din : ℕ), ds.length = ns.length →
      stagesLastDim din (ds.zip ns) = ds.getLastD din := by
  intro ds
  induction ds with
  | nil => intro ns din _; rfl
  | cons d rest ih =>
      intro ns din hlen
      cases ns with
      | nil => simp at hlen
      | cons n ns' =>
          rw [List.zip_cons_cons, stagesLastDim, List.getLastD_cons,
            ih ns' d (by simpa using hlen)]

/-- Helper: the temporal transformer preserves a matching sequence shape. -/
theorem transformerShape_ok (dim N : ℕ) :
    ∀ t : ℕ, transformerShape dim N t (N, dim) = some (N, dim) := by
  intro t
  induction t with
  | zero => rfl
  | succ m ih => rw [transformerShape, if_pos ⟨rfl, rfl⟩, ih]

/-- C1: for every video input `(b, channels, f, h, w)` of a validly
configured model (positive stage depths, `dim_head ∣ dim`, even embedding
width, positive window size, token count and action bins) whose height and
width are positive and divisible by `window_size` times the total stage
downsampling factor `2^(num_stages + 1)`, and with exactly one of
`texts`/`text_embeds` supplied, `HLTransformer.forward` returns a tensor of
shape exactly `(batch, frames, num_actions, action_bins)`. -/
theorem hlt_forward_output_shape
    (channels stemDim dim dimHead w : ℕ) (depth : List ℕ)
    (tDepth g numActions actionBins : ℕ) (ht he : Bool) (b f h wImg : ℕ)
    (hxor : (ht ^^ he) = true)
    (hdep : ∀ d ∈ depth, 0 < d)
    (hdh : 0 < dimHead) (hdvd : dimHead ∣ dim)
    (hw : 0 < w) (hg : 0 < g)
    (heven : 2 ∣ maxvitEmbedDim stemDim dim depth.length)
    (hbins : 0 < actionBins)
    (hH : 0 < h) (hW : 0 < wImg)
    (hdivH : 2 ^ (depth.length + 1) * w ∣ h)
    (hdivW : 2 ^ (depth.length + 1) * w ∣ wImg) :
    hltForwardShape channels stemDim dim dimHead w depth tDepth g
      numActions actionBins ht he b channels f h wImg =
      .ok (b, f, numActions, actionBins) := by
  have h2H : 2 ∣ h :=
    dvd_trans ⟨2 ^ depth.length * w, by ring⟩ hdivH
  have h2W : 2 ∣ wImg :=
    dvd_trans ⟨2 ^ depth.length * w, by ring⟩ hdivW
  obtain ⟨mH, hmH⟩ := hdivH
  obtain ⟨mW, hmW⟩ := hdivW
  have hH2 : h / 2 = 2 ^ depth.length * w * mH := by
    rw [hmH, show 2 ^ (depth.length + 1) * w * mH =
      2 * (2 ^ depth.length * w * mH) from by ring]
    exact Nat.mul_div_cancel_left _ (by norm_num)
  have hW2 : wImg / 2 = 2 ^ depth.length * w * mW := by
    rw [hmW, show 2 ^ (depth.length + 1) * w * mW =
      2 * (2 ^ depth.length * w * mW) from by ring]
    exact Nat.mul_div_cancel_left _ (by norm_num)
  have hH2pos : 0 < h / 2 := Nat.div_pos (by omega) (by norm_num)
  have hW2pos : 0 < wImg / 2 := Nat.div_pos (by omega) (by norm_num)
  have hzlen : ((maxvitDims dim depth.length).zip depth).length =
      depth.length := by
    simp [maxvitDims]
  have hzmem : ∀ p ∈ (maxvitDims dim depth.length).zip depth,
      0 < p.2 ∧ dimHead ∣ p.1 := by
    intro p hp
    have h1 := List.of_mem_zip hp
    constructor
    · exact hdep p.2 h1.2
    · obtain ⟨i, _, hi⟩ := List.mem_map.mp h1.1
      exact hi ▸ Dvd.dvd.mul_left hdvd _
  have hstages :
      stagesShape (b * f) w dimHead stemDim
          ((maxvitDims dim depth.length).zip depth) ⟨stemDim, h / 2, wImg / 2⟩ =
        some ⟨maxvitEmbedDim stemDim dim depth.length,
          h / 2 / 2 ^ depth.length, wImg / 2 / 2 ^ depth.length⟩ := by
    rw [stagesShape_ok (b * f) w dimHead hw hdh
      ((maxvitDims dim depth.length).zip depth) stemDim (h / 2) (wImg / 2)
      hzmem hH2pos hW2pos
      (by rw [hzlen]; exact ⟨mH, hH2⟩) (by rw [hzlen]; exact ⟨mW, hW2⟩),
      hzlen,
      stagesLastDim_zip (maxvitDims dim depth.length) depth stemDim
        (by simp [maxvitDims])]
    rfl
  rw [hltForwardShape, if_pos hxor]
  dsimp only
  rw [maxvitEmbedShape,
    stemShape_ok channels stemDim h wImg h2H h2W hH hW, Option.some_bind,
    hstages]
  dsimp only [Option.some_bind]
  rw [tokenLearnerShape_ok (maxvitEmbedDim stemDim dim depth.length) 2 g
    [b, f] (h / 2 / 2 ^ depth.length) (wImg / 2 / 2 ^ depth.length) hg]
  dsimp only [Option.some_bind]
  rw [if_pos rfl,
    if_pos (show posembWidth (maxvitEmbedDim stemDim dim depth.length) =
      maxvitEmbedDim stemDim dim depth.length by
        rw [posembWidth]; omega),
    transformerShape_ok (maxvitEmbedDim stemDim dim depth.length) (f * g)
      tDepth]
  dsimp only [Option.some_bind]
  rw [if_pos ⟨rfl, hbins⟩]

/-- Witness for C1 at the README/example configuration: video
`(2, 3, 6, 224, 224)`, `MaxViT(dim = 96, dim_conv_stem = 64,
depth = (2, 2, 5, 2), dim_head = 32, window_size = 7)`,
`HLTransformer(depth = 6, num_actions = 11, action_bins = 256,
num_learned_tokens = 8)`, texts supplied: output shape `(2, 6, 11, 256)`. -/
theorem hlt_forward_output_shape_witness :
    ((true ^^ false) = true ∧ (2 : ℕ) ^ ([2, 2, 5, 2].length + 1) * 7 ∣ 224) ∧
      hltForwardShape 3 64 96 32 7 [2, 2, 5, 2] 6 8 11 256 true false
        2 3 6 224 224 = .ok (2, 6, 11, 256) :=
  ⟨⟨by decide, by decide⟩,
    hlt_forward_output_shape 3 64 96 32 7 [2, 2, 5, 2] 6 8 11 256 true false
      2 6 224 224 (by decide) (by decide) (by decide) (by decide) (by decide)
      (by decide) (by decide) (by decide) (by decide) (by decide) (by decide)
      (by decide)⟩

/-- C8: the positional embedding added in `HLTransformer.forward` is
indexed by frame number, not token position: after
`repeat(pos_emb, "n d -> (n r) d")` with `r = num_learned_tokens`, the
token at flattened position `f·r + t` (token `t` of frame `f`) receives
exactly row `f` of the sinusoidal table — identically for all `r` tokens of
the frame, and rows of different frames come from their own frame index. -/
theorem posemb_added_per_frame (d temp r f t j : ℕ) (ht : t < r) :
    repeatRows r (posembRow d temp) (f * r + t) j = posembRow d temp f j := by
  have hfr : (f * r + t) / r = f := by
    rw [mul_comm, Nat.mul_add_div (by omega), Nat.div_eq_of_lt ht, add_zero]
  rw [repeatRows, hfr]

/-- Witness for C8: with 8 learned tokens, token 3 of frame 2 (flattened
position 19) receives row 2 of the table. -/
theorem posemb_added_per_frame_witness :
    3 < 8 ∧
      repeatRows 8 (posembRow 512 10000) (2 * 8 + 3) 0 =
        posembRow 512 10000 2 0 :=
  ⟨by decide, posemb_added_per_frame 512 10000 8 2 3 0 (by decide)⟩

/-- C10: `TransformerAttention` is multi-query attention: `to_kv` projects
keys and values to exactly one head of width `dim_head` (the `wk`/`wv`
parameter shapes), and its forward output equals a reference multi-head
attention in which every one of the `heads` query heads attends over that
same single key/value head. -/
theorem transformer_attention_is_multi_query (n d dh heads : ℕ)
    (P : TAParams d dh heads) (x : Fin n → Fin d → ℝ) :
    taForward P none none x =
      multiHeadAttention P.gamma P.wq (fun _ => P.wk) (fun _ => P.wv) P.wo
        x := by
  funext i c
  simp only [taForward, multiHeadAttention, taAttn, taExpWeight, taKeep,
    taSim, taQuery, taKey, taValue, taCondNormed, if_true]

/-- Helper: the block-causal mask entry is `true` exactly when the key
token's frame does not exceed the query token's frame. -/
theorem hltAttnMask_iff (r a b : ℕ) :
    hltAttnMask r a b = true ↔ b / r ≤ a / r := by
  simp only [hltAttnMask, repeatMask, triuMask, Bool.not_eq_eq_eq_not,
    Bool.not_true, decide_eq_false_iff_not]
  omega

/-- Helper: the conditioned-normalized query input at a position depends
only on the raw input at that position. -/
theorem taCondNormed_congr {n d dh heads : ℕ} (P : TAParams d dh heads)
    (cond : Option ((Fin d → ℝ) → Fin d → ℝ)) (x y : Fin n → Fin d → ℝ)
    (i : Fin n) (hxi : x i = y i) :
    taCondNormed P cond x i = taCondNormed P cond y i := by
  cases cond <;> simp [taCondNormed, hxi]

/-- Helper: the similarity between a query and a key position depends only
on the input at those two positions. -/
theorem taSim_congr {n d dh heads : ℕ} (P : TAParams d dh heads)
    (cond : Option ((Fin d → ℝ) → Fin d → ℝ)) (x y : Fin n → Fin d → ℝ)
    (h : Fin heads) (i j : Fin n) (hxi : x i = y i) (hxj : x j = y j) :
    taSim P cond x h i j = taSim P cond y h i j := by
  simp only [taSim, taQuery, taKey,
    taCondNormed_congr P cond x y i hxi, hxj]

/-- Helper: under a mask whose visible keys never come from a later frame,
the attention output at a query position of frame ≤ F depends only on the
input at positions of frame ≤ F. -/
theorem taForward_congr {n d dh heads : ℕ} (P : TAParams d dh heads)
    (M : Fin n → Fin n → Bool) (cond : Option ((Fin d → ℝ) → Fin d → ℝ))
    (r F : ℕ) (hM : ∀ a b : Fin n, M a b = true → b.val / r ≤ a.val / r)
    (x y : Fin n → Fin d → ℝ)
    (hxy : ∀ p : Fin n, p.val / r ≤ F → x p = y p)
    (p : Fin n) (hp : p.val / r ≤ F) :
    taForward P (some M) cond x p = taForward P (some M) cond y p := by
  have hxp : x p = y p := hxy p hp
  have hW : ∀ (h : Fin heads) (j : Fin n),
      taExpWeight P (some M) cond x h p j =
        taExpWeight P (some M) cond y h p j := by
    intro h j
    cases hMj : M p j with
    | true =>
        have hxj : x j = y j := hxy j (le_trans (hM p j hMj) hp)
        simp only [taExpWeight, taKeep, hMj,
          taSim_congr P cond x y h p j hxp hxj]
    | false =>
        simp only [taExpWeight, taKeep, hMj, if_false, Bool.false_eq_true]
  funext c
  simp only [taForward]
  refine Finset.sum_congr rfl fun h _ => Finset.sum_congr rfl fun e _ => ?_
  congr 1
  refine Finset.sum_congr rfl fun j _ => ?_
  have hZ : (∑ j', taExpWeight P (some M) cond x h p j') =
      ∑ j', taExpWeight P (some M) cond y h p j' :=
    Finset.sum_congr rfl fun j' _ => hW h j'
  cases hMj : M p j with
  | true =>
      have hxj : x j = y j := hxy j (le_trans (hM p j hMj) hp)
      rw [taAttn, taAttn, hW h j, hZ, taValue, taValue, hxj]
  | false =>
      have h0x : taExpWeight P (some M) cond x h p j = 0 := by
        simp [taExpWeight, taKeep, hMj]
      have h0y : taExpWeight P (some M) cond y h p j = 0 := by
        simp [taExpWeight, taKeep, hMj]
      rw [taAttn, taAttn, h0x, h0y, zero_div, zero_div, zero_mul, zero_mul]

/-- Helper: one transformer layer preserves agreement on the positions of
frame ≤ F, under a frame-causal mask. -/
theorem transformerLayer_congr {n d dh heads : ℕ}
    (L : TLayerParams d dh heads) (M : Fin n → Fin n → Bool)
    (r F : ℕ) (hM : ∀ a b : Fin n, M a b = true → b.val / r ≤ a.val / r)
    (x y : Fin n → Fin d → ℝ)
    (hxy : ∀ p : Fin n, p.val / r ≤ F → x p = y p)
    (p : Fin n) (hp : p.val / r ≤ F) :
    transformerLayer L M x p = transformerLayer L M y p := by
  have hTAp := taForward_congr L.attn M L.attnCond r F hM x y hxy p hp
  have hxp := hxy p hp
  dsimp only [transformerLayer]
  rw [hTAp, hxp]

/-- Helper: the transformer stack preserves agreement on the positions of
frame ≤ F, under a frame-causal mask. -/
theorem transformerStack_congr {n d dh heads : ℕ}
    (layers : List (TLayerParams d dh heads)) (M : Fin n → Fin n → Bool)
    (r F : ℕ) (hM : ∀ a b : Fin n, M a b = true → b.val / r ≤ a.val / r) :
    ∀ (x y : Fin n → Fin d → ℝ),
      (∀ p : Fin n, p.val / r ≤ F → x p = y p) →
      ∀ p : Fin n, p.val / r ≤ F →
        transformerStack layers M x p = transformerStack layers M y p := by
  induction layers with
  | nil => intro x y hxy p hp; exact hxy p hp
  | cons L rest ih =>
      intro x y hxy p hp
      exact ih (transformerLayer L M x) (transformerLayer L M y)
        (fun q hq => transformerLayer_congr L M r F hM x y hxy q hq) p hp

/-- C3: the attention mask built in `HLTransformer.forward` is block-causal
over frames — token `ti` of frame `i` may attend to token `tj` of frame `j`
iff `j ≤ i` — and consequently, for two runs whose per-frame contents agree
on every frame up to `F` (identical parameters and conditioning, evaluation
mode), the pooled output of frame `F` is identical. -/
theorem hlt_mask_block_causal_and_pooled_independent
    {α : Type} (f r d dh heads : ℕ)
    (layers : List (TLayerParams d dh heads))
    (φ : α → ℕ → Fin d → ℝ) (v1 v2 : ℕ → α) (F : ℕ)
    (hF : F < f) (hv : ∀ i : ℕ, i ≤ F → v1 i = v2 i) :
    (∀ i j ti tj : ℕ, ti < r → tj < r →
      (hltAttnMask r (i * r + ti) (j * r + tj) = true ↔ j ≤ i)) ∧
    hltTemporalPooled f r d dh heads layers φ v1 F hF =
      hltTemporalPooled f r d dh heads layers φ v2 F hF := by
  constructor
  · intro i j ti tj hti htj
    have hi : (i * r + ti) / r = i := by
      rw [mul_comm, Nat.mul_add_div (by omega), Nat.div_eq_of_lt hti,
        add_zero]
    have hj : (j * r + tj) / r = j := by
      rw [mul_comm, Nat.mul_add_div (by omega), Nat.div_eq_of_lt htj,
        add_zero]
    rw [hltAttnMask_iff, hi, hj]
  · have hM : ∀ a b : Fin (f * r),
        hltAttnMask r a.val b.val = true → b.val / r ≤ a.val / r :=
      fun a b hab => (hltAttnMask_iff r a.val b.val).mp hab
    dsimp only [hltTemporalPooled]
    have hx0 : ∀ p : Fin (f * r), p.val / r ≤ F →
        (fun c => φ (v1 (p.val / r)) (p.val % r) c +
          repeatRows r (posembRow d 10000) p.val c.val) =
        (fun c => φ (v2 (p.val / r)) (p.val % r) c +
          repeatRows r (posembRow d 10000) p.val c.val) := by
      intro p hp
      funext c
      rw [hv (p.val / r) hp]
    funext c
    congr 1
    refine Finset.sum_congr rfl fun t _ => ?_
    have hr : 0 < r := lt_of_le_of_lt (Nat.zero_le _) t.isLt
    have hp : (F * r + t.val) / r ≤ F := by
      rw [mul_comm, Nat.mul_add_div hr, Nat.div_eq_of_lt t.isLt, add_zero]
    exact congrFun
      (transformerStack_congr layers _ r F hM _ _ hx0 _ hp) c

/-- Witness for C3: two frames, one token per frame, a one-layer
transformer with zero weights; the two runs differ only in frame 1's
content but the pooled output of frame 0 is identical (and frame 1's token
may attend to frame 0's but not conversely). -/
theorem hlt_mask_block_causal_and_pooled_independent_witness :
    (0 ≤ 0 → (fun i => if i = 0 then (0 : ℝ) else 1) 0 =
      (fun i => if i = 0 then (0 : ℝ) else 2) 0) ∧
    (hltAttnMask 1 (1 * 1 + 0) (0 * 1 + 0) = true ↔ 0 ≤ 1) ∧
    hltTemporalPooled 2 1 1 1 1
        [⟨⟨fun _ => 1, fun _ _ => 0, fun _ _ => 0, fun _ _ => 0,
            fun _ _ => 0⟩, none,
          ⟨fun _ => 1, fun _ _ => 0, fun _ => 0, fun _ _ => 0, fun _ => 0⟩,
          none⟩]
        (fun a _ _ => a) (fun i => if i = 0 then (0 : ℝ) else 1) 0
        (by decide) =
      hltTemporalPooled 2 1 1 1 1
        [⟨⟨fun _ => 1, fun _ _ => 0, fun _ _ => 0, fun _ _ => 0,
            fun _ _ => 0⟩, none,
          ⟨fun _ => 1, fun _ _ => 0, fun _ => 0, fun _ _ => 0, fun _ => 0⟩,
          none⟩]
        (fun a _ _ => a) (fun i => if i = 0 then (0 : ℝ) else 2) 0
        (by decide) := by
  have hv : ∀ i : ℕ, i ≤ 0 →
      (fun i => if i = 0 then (0 : ℝ) else 1) i =
        (fun i => if i = 0 then (0 : ℝ) else 2) i := by
    intro i hi
    have : i = 0 := by omega
    subst this
    simp
  refine ⟨fun _ => by simp, ?_, ?_⟩
  · exact (hlt_mask_block_causal_and_pooled_independent 2 1 1 1 1
      [⟨⟨fun _ => 1, fun _ _ => 0, fun _ _ => 0, fun _ _ => 0,
          fun _ _ => 0⟩, none,
        ⟨fun _ => 1, fun _ _ => 0, fun _ => 0, fun _ _ => 0, fun _ => 0⟩,
        none⟩]
      (fun a _ _ => a) (fun i => if i = 0 then (0 : ℝ) else 1)
      (fun i => if i = 0 then (0 : ℝ) else 2) 0 (by decide) hv).1 1 0 0 0
      (by decide) (by decide)
  · exact (hlt_mask_block_causal_and_pooled_independent 2 1 1 1 1
      [⟨⟨fun _ => 1, fun _ _ => 0, fun _ _ => 0, fun _ _ => 0,
          fun _ _ => 0⟩, none,
        ⟨fun _ => 1, fun _ _ => 0, fun _ => 0, fun _ _ => 0, fun _ => 0⟩,
        none⟩]
      (fun a _ _ => a) (fun i => if i = 0 then (0 : ℝ) else 1)
      (fun i => if i = 0 then (0 : ℝ) else 2) 0 (by decide) hv).2

end HLT
